import Mathlib

/-!
Shallow embedding of the dynamic-language-switcher core
(src/core/language-switcher.ts, src/adapters, src/utils/translation-service.ts,
src/utils/content-detector.ts) and proofs about its specification claims.

JS objects are modelled as association lists looked up by first matching key
(prototype-chain lookups such as inherited object members are outside the
model); JS strings are Lean strings, with UTF-16 length modelled explicitly
where the source depends on it.  Browser-only side effects (localStorage,
document direction) touch only the host environment, never the fields of
the switcher, and are modelled as the identity on the state; the persisted
value read at construction time is passed in as an explicit parameter.
-/

set_option autoImplicit false

/-- Lookup of a property on a JS object literal: first entry whose key
matches (own properties only). -/
def jsGet {α : Type} (obj : List (String × α)) (key : String) : Option α :=
  match obj with
  | [] => none
  | entry :: rest => if entry.1 = key then some entry.2 else jsGet rest key

/-- Assignment `obj[key] = v` on a JS object: overwrite the entry if the key
exists, otherwise append it. -/
def jsSet {α : Type} (obj : List (String × α)) (key : String) (v : α) :
    List (String × α) :=
  match obj with
  | [] => [(key, v)]
  | entry :: rest =>
    if entry.1 = key then (key, v) :: rest else entry :: jsSet rest key v

/-- `delete obj[key]` on a JS object. -/
def jsDelete {α : Type} (obj : List (String × α)) (key : String) :
    List (String × α) :=
  obj.filter (fun entry => entry.1 ≠ key)

/-- Object spread `{...base, ...updates}`: keys of `updates` win, keys only
in `base` keep their value. -/
def spreadMerge {α : Type} (base updates : List (String × α)) :
    List (String × α) :=
  (base.map (fun entry =>
    match jsGet updates entry.1 with
    | some v => (entry.1, v)
    | none => entry)) ++
  updates.filter (fun entry => (jsGet base entry.1).isNone)

/-- `TranslationData` (src/types/types.ts): a recursive mapping from string
keys to string leaves or nested dictionaries. -/
inductive TransValue where
  | str (s : String)
  | dict (entries : List (String × TransValue))

abbrev TranslationData := List (String × TransValue)

/-- The dot split `key.split(".")` from `getTranslationByKey`, on the character list:
splitting on a single separator character, so that an empty string yields
one empty segment, like the JS `String.prototype.split`. -/
def splitDots (cs : List Char) : List (List Char) :=
  match cs with
  | [] => [[]]
  | c :: rest =>
    if c = '.' then [] :: splitDots rest
    else
      match splitDots rest with
      | s :: ss => (c :: s) :: ss
      | [] => [[c]]

def splitKey (key : String) : List String :=
  (splitDots key.data).map String.mk

/-- The key walk of `getTranslationByKey`: at each segment the current value
must be an object (a string fails the object typeof check,
and an absent start value fails the truthiness check) containing the
segment. -/
def walkPath : Option TransValue → List String → Option TransValue
  | current, [] => current
  | some (TransValue.dict d), k :: rest =>
    (match jsGet d k with
     | some v => walkPath (some v) rest
     | none => none)
  | _, _ :: _ => none

/-- One arm of `getTranslationByKey`: walk the dictionary of a language (possibly
absent from `translations`) along the split key, and keep the result only if
it is a string (the string typeof check). -/
def resolveString (dict : Option TranslationData) (keys : List String) :
    Option String :=
  match walkPath (dict.map TransValue.dict) keys with
  | some (TransValue.str s) => some s
  | _ => none

/-- A `string | number` interpolation parameter. Only integral JS numbers
are modelled; their `toString()` is the decimal representation. -/
inductive ParamValue where
  | s (v : String)
  | n (v : Int)
deriving DecidableEq

def ParamValue.toString : ParamValue → String
  | ParamValue.s v => v
  | ParamValue.n v => v.repr

/-- ASCII word character, the `\w` class of the interpolation regex. -/
def isWordChar (c : Char) : Bool :=
  decide ((65 ≤ c.toNat ∧ c.toNat ≤ 90) ∨ (97 ≤ c.toNat ∧ c.toNat ≤ 122) ∨
    (48 ≤ c.toNat ∧ c.toNat ≤ 57) ∨ c.toNat = 95)

/-- Attempt to match the regex of `defaultInterpolation` (two opening
braces, one or more word characters, two closing braces) at the head of the
character list, returning the captured name and the remainder. -/
def tryPlaceholder (cs : List Char) : Option (List Char × List Char) :=
  match cs with
  | c1 :: c2 :: rest =>
    if c1 = '{' ∧ c2 = '{' then
      match rest.takeWhile isWordChar, rest.dropWhile isWordChar with
      | name :: more, d1 :: d2 :: tail =>
        if d1 = '}' ∧ d2 = '}' then some (name :: more, tail) else none
      | _, _ => none
    else none
  | _ => none

/-- The whole matched placeholder text, used when the replacement falls back
to the match itself. -/
def placeholderText (name : List Char) : List Char :=
  '{' :: '{' :: name ++ '}' :: '}' :: []

/-- The replacement callback of `defaultInterpolation`:
`params[key]?.toString() || match` — an absent parameter, or one whose
string form is empty (falsy), leaves the matched text in place. -/
def placeholderReplacement (params : List (String × ParamValue))
    (name : List Char) : List Char :=
  match jsGet params (String.mk name) with
  | some v =>
    if ParamValue.toString v = "" then placeholderText name
    else (ParamValue.toString v).data
  | none => placeholderText name

/-- Left-to-right global regex replacement: on a match, emit the replacement
and continue after the match; otherwise emit one character and retry at the
next position.  The fuel argument (initially the input length, which each
step decreases below) keeps the recursion structural. -/
def interpGo (params : List (String × ParamValue)) :
    Nat → List Char → List Char
  | _, [] => []
  | 0, cs => cs
  | fuel + 1, c :: cs =>
    match tryPlaceholder (c :: cs) with
    | some (name, tail) =>
      placeholderReplacement params name ++ interpGo params fuel tail
    | none => c :: interpGo params fuel cs

/-- `LanguageSwitcher.defaultInterpolation`. -/
def defaultInterpolation (text : String)
    (params : List (String × ParamValue)) : String :=
  String.mk (interpGo params text.data.length text.data)

/-- `LanguageConfig` (src/types/types.ts). -/
structure LanguageConfig where
  code : String
  name : String
  flag : Option String := none
  rtl : Option Bool := none
deriving DecidableEq

/-- Constructor options as passed by the caller; `none` models an absent
field, replaced by the defaults of the constructor. -/
structure LanguageSwitcherOptions where
  defaultLanguage : String
  fallbackLanguage : Option String := none
  persistLanguage : Option Bool := none
  storageKey : Option String := none
  debug : Option Bool := none

/-- `this.options` after the constructor spreads the defaults. -/
structure ResolvedOptions where
  defaultLanguage : String
  fallbackLanguage : String
  persistLanguage : Bool
  storageKey : String
  debug : Bool
deriving DecidableEq

/-- The mutable state of a `LanguageSwitcher` instance.  `hasCallback`
records whether an `onLanguageChange` callback has been assigned, and
`callbackLog` the sequence of language codes it has been invoked with. -/
structure LanguageSwitcher where
  currentLanguage : String
  availableLanguages : List LanguageConfig
  translations : List (String × TranslationData)
  options : ResolvedOptions
  hasCallback : Bool
  callbackLog : List String

/-- `if (this.onLanguageChange) this.onLanguageChange(language)`. -/
def LanguageSwitcher.fireCallback (st : LanguageSwitcher) (language : String) :
    LanguageSwitcher :=
  if st.hasCallback then { st with callbackLog := st.callbackLog ++ [language] }
  else st

/-- `isLanguageAvailable`: `availableLanguages.some(lang => lang.code ===
language)`. -/
def LanguageSwitcher.isLanguageAvailable (st : LanguageSwitcher)
    (language : String) : Bool :=
  st.availableLanguages.any (fun lang => lang.code == language)

/-- `setLanguage`.  The result of the availability `find` is truthy exactly
when some config has the code.  A thrown error happens before any mutation;
persistence and document direction touch only the host environment; with no
translation service configured the auto-translate branch is skipped, so the
whole body runs synchronously up to the change callback. -/
def LanguageSwitcher.setLanguage (st : LanguageSwitcher) (language : String) :
    Except String Unit × LanguageSwitcher :=
  if ¬ st.availableLanguages.any (fun lang => lang.code == language) then
    (Except.error ("Language \x27" ++ language ++ "\x27 is not available"), st)
  else if st.currentLanguage == language then
    (Except.ok (), st)
  else
    (Except.ok (),
      LanguageSwitcher.fireCallback { st with currentLanguage := language }
        language)

/-- The `findIndex` / replace-in-place / push combination of `addLanguage`:
replace the first config whose code matches, else append. -/
def replaceOrAppend (langs : List LanguageConfig) (language : String)
    (config : LanguageConfig) : List LanguageConfig :=
  match langs with
  | [] => [config]
  | l :: rest =>
    if l.code = language then config :: rest
    else l :: replaceOrAppend rest language config

/-- `addLanguage(language, config)`. -/
def LanguageSwitcher.addLanguage (st : LanguageSwitcher) (language : String)
    (config : LanguageConfig) : LanguageSwitcher :=
  { st with availableLanguages :=
      replaceOrAppend st.availableLanguages language config }

/-- `addTranslations(language, translations)`: top-level object spread of
the new data over the existing dictionary (an absent dictionary spreads as
the empty object). -/
def LanguageSwitcher.addTranslations (st : LanguageSwitcher)
    (language : String) (translations : TranslationData) : LanguageSwitcher :=
  { st with
    translations :=
      jsSet st.translations language
        (spreadMerge ((jsGet st.translations language).getD []) translations) }

/-- `removeLanguage(language)`.  The guard throws before any mutation.  The
trailing `setLanguage(default)` returns an unawaited promise whose rejection
is dropped, but (with no translation service) its synchronous body has
already run, so its state effect is kept either way. -/
def LanguageSwitcher.removeLanguage (st : LanguageSwitcher)
    (language : String) : Except String Unit × LanguageSwitcher :=
  if language == st.options.defaultLanguage then
    (Except.error ("Cannot remove default language \x27" ++ language ++ "\x27"), st)
  else
    let st2 : LanguageSwitcher :=
      { st with
        availableLanguages :=
          st.availableLanguages.filter (fun lang => lang.code ≠ language),
        translations := jsDelete st.translations language }
    if st2.currentLanguage == language then
      (Except.ok (), (st2.setLanguage st.options.defaultLanguage).2)
    else
      (Except.ok (), st2)

/-- `getTranslationByKey`: walk the dictionary of the current language; if no
string results and the (truthy) fallback language differs from the current
one, walk the fallback dictionary the same way. -/
def LanguageSwitcher.getTranslationByKey (st : LanguageSwitcher)
    (key : String) : Option String :=
  let keys := splitKey key
  match resolveString (jsGet st.translations st.currentLanguage) keys with
  | some s => some s
  | none =>
    if st.options.fallbackLanguage ≠ "" ∧
        st.options.fallbackLanguage ≠ st.currentLanguage then
      resolveString (jsGet st.translations st.options.fallbackLanguage) keys
    else none

/-- `getText(key, params?)`.  The `if (!translation)` falsiness check sends
both a missing key and an empty-string translation to the literal key;
interpolation runs only when `params` is passed at all. -/
def LanguageSwitcher.getText (st : LanguageSwitcher) (key : String)
    (params : Option (List (String × ParamValue))) : String :=
  match st.getTranslationByKey key with
  | none => key
  | some translation =>
    if translation = "" then key
    else
      match params with
      | some p => defaultInterpolation translation p
      | none => translation

/-- `defaultLanguage.toUpperCase()` (ASCII-faithful). -/
def jsToUpper (s : String) : String := String.mk (s.data.map Char.toUpper)

/-- `loadPersistedLanguage`: adopt the stored value only if it is truthy and
names an available language.  The stored string (if the host has storage at
all) is an explicit parameter. -/
def LanguageSwitcher.loadPersistedLanguage (st : LanguageSwitcher)
    (persisted : Option String) : LanguageSwitcher :=
  match persisted with
  | some p =>
    if p ≠ "" ∧ st.isLanguageAvailable p then { st with currentLanguage := p }
    else st
  | none => st

/-- The constructor: resolve option defaults, start at the default
language, register the config of the default language, then (when persistence is
enabled) consult the stored value.  `hasCallback` models a subsequent
`switcher.onLanguageChange = fn` assignment, which touches no other field. -/
def mkSwitcher (options : LanguageSwitcherOptions)
    (persisted : Option String) (hasCallback : Bool) : LanguageSwitcher :=
  let resolved : ResolvedOptions :=
    { defaultLanguage := options.defaultLanguage
      fallbackLanguage := options.fallbackLanguage.getD "en"
      persistLanguage := options.persistLanguage.getD true
      storageKey := options.storageKey.getD "preferred-language"
      debug := options.debug.getD false }
  let st : LanguageSwitcher :=
    { currentLanguage := resolved.defaultLanguage
      availableLanguages := []
      translations := []
      options := resolved
      hasCallback := hasCallback
      callbackLog := [] }
  let st := st.addLanguage resolved.defaultLanguage
    { code := resolved.defaultLanguage
      name := jsToUpper resolved.defaultLanguage }
  if resolved.persistLanguage then st.loadPersistedLanguage persisted else st

/-- The language codes of the available-language set. -/
def availableCodes (st : LanguageSwitcher) : List String :=
  st.availableLanguages.map (fun lang => lang.code)

/-- One public mutating operation on a switcher instance. -/
inductive SwitcherOp where
  | addLanguage (language : String) (config : LanguageConfig)
  | addTranslations (language : String) (data : TranslationData)
  | removeLanguage (language : String)
  | setLanguage (language : String)

/-- Run one operation; thrown errors and promise rejections leave the state
as the method left it. -/
def applyOp (st : LanguageSwitcher) (op : SwitcherOp) : LanguageSwitcher :=
  match op with
  | SwitcherOp.addLanguage l c => st.addLanguage l c
  | SwitcherOp.addTranslations l d => st.addTranslations l d
  | SwitcherOp.removeLanguage l => (st.removeLanguage l).2
  | SwitcherOp.setLanguage l => (st.setLanguage l).2

/-- Run a sequence of public operations. -/
def runOps (st : LanguageSwitcher) (ops : List SwitcherOp) : LanguageSwitcher :=
  ops.foldl applyOp st

/-- JS `String.prototype.length`: the number of UTF-16 code units (an
astral code point counts twice). -/
def jsLength (s : String) : Nat :=
  (s.data.map (fun c => if c.toNat ≤ 0xFFFF then 1 else 2)).sum

def isAsciiDigit (c : Char) : Bool :=
  decide (48 ≤ c.toNat ∧ c.toNat ≤ 57)

def isAsciiLetter (c : Char) : Bool :=
  decide ((65 ≤ c.toNat ∧ c.toNat ≤ 90) ∨ (97 ≤ c.toNat ∧ c.toNat ≤ 122))

/-- A whole-string character-class regex test `^[...]+$`: non-empty and
every character in the class. -/
def matchesAll (p : Char → Bool) (text : String) : Bool :=
  !text.data.isEmpty && text.data.all p

/-- A containment regex test `[...]` without anchors. -/
def containsChar (p : Char → Bool) (text : String) : Bool :=
  text.data.any p

/-- `isTranslatableText` (identical in ContentDetector and
LanguageSwitcher).  The class of the first test is digits, whitespace and
non-word characters; since every JS whitespace character is a non-word
character the class is the complement of letters-and-underscore.  The
class of the second test is letters, whitespace and non-word characters:
the
complement of digits-and-underscore.  The unicode test looks for a UTF-16
code unit at or above U+0080; since an astral code point is encoded as two
surrogates inside that range, a character (code point) matches exactly when
its value is at least 0x80. -/
def isTranslatableText (text : String) : Bool :=
  if jsLength text < 2 then false
  else if matchesAll (fun c => isAsciiDigit c || !isWordChar c) text ||
      decide (jsLength text < 2) then false
  else
    matchesAll (fun c => isAsciiLetter c || !isWordChar c) text ||
      containsChar (fun c => decide (128 ≤ c.toNat)) text

/-- `TranslationRequest` (the `element` field is DOM-only and omitted). -/
structure TranslationRequest where
  text : String
  fromLanguage : String
  toLanguage : String
deriving DecidableEq

/-- `TranslationResponse`. -/
structure TranslationResponse where
  translatedText : String
  confidence : Option Rat := none
  detectedLanguage : Option String := none
deriving DecidableEq

/-- `TranslationService.translateBatch`: translate the requests one after
the other; a per-item failure of the provider call (the `translate`
parameter abstracts the provider dispatch and the network) is replaced by a
zero-confidence response echoing the request text. -/
def translateBatch
    (translate : TranslationRequest → Except String TranslationResponse) :
    List TranslationRequest → List TranslationResponse
  | [] => []
  | request :: rest =>
    (match translate request with
     | Except.ok response => response
     | Except.error _ =>
       { translatedText := request.text
         confidence := some 0
         detectedLanguage := some request.fromLanguage }) ::
      translateBatch translate rest

/-- Does every `addLanguage` in the sequence use a config whose code equals
the language argument? -/
def goodAdds (ops : List SwitcherOp) : Bool :=
  ops.all (fun op =>
    match op with
    | SwitcherOp.addLanguage l c => c.code == l
    | _ => true)

/-- The invariant claimed for reachable switcher states: the current
language and the configured default language both name available
languages. -/
def SwitcherInvariant (st : LanguageSwitcher) : Prop :=
  st.currentLanguage ∈ availableCodes st ∧
    st.options.defaultLanguage ∈ availableCodes st

theorem jsGet_append {α : Type} (xs ys : List (String × α)) (k : String) :
    jsGet (xs ++ ys) k =
      match jsGet xs k with
      | some v => some v
      | none => jsGet ys k := by
  induction xs with
  | nil => simp [jsGet]
  | cons e rest ih =>
    by_cases h : e.1 = k <;> simp [jsGet, h, ih]

theorem jsGet_mapOverride {α : Type} (base updates : List (String × α))
    (k : String) :
    jsGet (base.map (fun entry =>
        match jsGet updates entry.1 with
        | some v => (entry.1, v)
        | none => entry)) k =
      match jsGet base k with
      | some v => some ((jsGet updates k).getD v)
      | none => none := by
  induction base with
  | nil => simp [jsGet]
  | cons e rest ih =>
    by_cases h : e.1 = k
    · subst h
      cases hu : jsGet updates e.1 <;> simp [jsGet, hu]
    · cases hu : jsGet updates e.1 <;> simp [jsGet, hu, h, ih]

theorem jsGet_filterAbsent {α : Type} (base updates : List (String × α))
    (k : String) :
    jsGet (updates.filter (fun entry => (jsGet base entry.1).isNone)) k =
      if (jsGet base k).isNone then jsGet updates k else none := by
  induction updates with
  | nil => simp [jsGet]
  | cons e rest ih =>
    by_cases h : e.1 = k
    · subst h
      cases hb : (jsGet base e.1).isNone <;>
        simp [List.filter_cons, jsGet, hb, ih]
    · cases hb : (jsGet base e.1).isNone <;>
        simp [List.filter_cons, jsGet, hb, h, ih]

theorem jsGet_spreadMerge {α : Type} (base updates : List (String × α))
    (k : String) :
    jsGet (spreadMerge base updates) k =
      match jsGet updates k with
      | some v => some v
      | none => jsGet base k := by
  rw [spreadMerge, jsGet_append, jsGet_mapOverride, jsGet_filterAbsent]
  cases hb : jsGet base k <;> cases hu : jsGet updates k <;> simp [hb, hu]

theorem jsGet_jsSet_self {α : Type} (m : List (String × α)) (k : String)
    (v : α) : jsGet (jsSet m k v) k = some v := by
  induction m with
  | nil => simp [jsGet, jsSet]
  | cons e rest ih =>
    by_cases h : e.1 = k <;> simp [jsGet, jsSet, h, ih]

theorem isLanguageAvailable_iff (st : LanguageSwitcher) (l : String) :
    st.isLanguageAvailable l = true ↔ l ∈ availableCodes st := by
  simp [LanguageSwitcher.isLanguageAvailable, availableCodes,
    List.any_eq_true, List.mem_map]

theorem fireCallback_currentLanguage (st : LanguageSwitcher) (l : String) :
    (st.fireCallback l).currentLanguage = st.currentLanguage := by
  unfold LanguageSwitcher.fireCallback
  split <;> rfl

theorem fireCallback_availableLanguages (st : LanguageSwitcher) (l : String) :
    (st.fireCallback l).availableLanguages = st.availableLanguages := by
  unfold LanguageSwitcher.fireCallback
  split <;> rfl

theorem fireCallback_options (st : LanguageSwitcher) (l : String) :
    (st.fireCallback l).options = st.options := by
  unfold LanguageSwitcher.fireCallback
  split <;> rfl

theorem fireCallback_translations (st : LanguageSwitcher) (l : String) :
    (st.fireCallback l).translations = st.translations := by
  unfold LanguageSwitcher.fireCallback
  split <;> rfl

theorem mem_map_code_filter (langs : List LanguageConfig)
    (language s : String) :
    s ∈ (langs.filter (fun lang => lang.code ≠ language)).map
        (fun lang => lang.code) ↔
      s ∈ langs.map (fun lang => lang.code) ∧ s ≠ language := by
  simp only [List.mem_map, List.mem_filter, decide_eq_true_eq]
  constructor
  · rintro ⟨lang, ⟨hmem, hne⟩, hcode⟩
    exact ⟨⟨lang, hmem, hcode⟩, hcode ▸ hne⟩
  · rintro ⟨⟨lang, hmem, hcode⟩, hne⟩
    exact ⟨lang, ⟨hmem, hcode ▸ hne⟩, hcode⟩

theorem mem_map_code_replaceOrAppend (langs : List LanguageConfig)
    (language : String) (config : LanguageConfig)
    (hc : config.code = language) (s : String)
    (hs : s ∈ langs.map (fun lang => lang.code)) :
    s ∈ (replaceOrAppend langs language config).map (fun lang => lang.code) := by
  induction langs with
  | nil => simp at hs
  | cons l rest ih =>
    have hs2 : s = l.code ∨ ∃ a ∈ rest, a.code = s := by simpa using hs
    by_cases h : l.code = language
    · simp only [replaceOrAppend, if_pos h, List.map_cons, List.mem_cons]
      rcases hs2 with heq | ⟨a, ha, hac⟩
      · exact Or.inl (by rw [hc, ← h, heq])
      · exact Or.inr (by simp only [List.mem_map]; exact ⟨a, ha, hac⟩)
    · simp only [replaceOrAppend, if_neg h, List.map_cons, List.mem_cons]
      rcases hs2 with heq | ⟨a, ha, hac⟩
      · exact Or.inl heq
      · exact Or.inr (ih (by simp only [List.mem_map]; exact ⟨a, ha, hac⟩))

theorem availableCodes_fireCallback (st : LanguageSwitcher) (l : String) :
    availableCodes (st.fireCallback l) = availableCodes st := by
  simp [availableCodes, fireCallback_availableLanguages]

theorem setLanguage_snd (st : LanguageSwitcher) (l : String) :
    (st.setLanguage l).2 =
      if st.availableLanguages.any (fun lang => lang.code == l) = true then
        (if st.currentLanguage == l then st
         else LanguageSwitcher.fireCallback { st with currentLanguage := l } l)
      else st := by
  unfold LanguageSwitcher.setLanguage
  by_cases ha : st.availableLanguages.any (fun lang => lang.code == l) = true
  · by_cases hc : (st.currentLanguage == l) = true <;> simp [ha, hc]
  · simp [ha]

theorem setLanguage_invariant (st : LanguageSwitcher) (l : String)
    (h : SwitcherInvariant st) : SwitcherInvariant (st.setLanguage l).2 := by
  rw [setLanguage_snd]
  by_cases ha : st.availableLanguages.any (fun lang => lang.code == l) = true
  · by_cases hc : (st.currentLanguage == l) = true
    · simp [ha, hc, h]
    · simp only [ha, hc, if_true, if_false, Bool.false_eq_true]
      constructor
      · rw [show (LanguageSwitcher.fireCallback { st with currentLanguage := l }
            l).currentLanguage = l from fireCallback_currentLanguage _ l]
        rw [show availableCodes (LanguageSwitcher.fireCallback
            { st with currentLanguage := l } l) = availableCodes st from
          availableCodes_fireCallback _ l]
        exact (isLanguageAvailable_iff st l).mp ha
      · rw [show availableCodes (LanguageSwitcher.fireCallback
            { st with currentLanguage := l } l) = availableCodes st from
          availableCodes_fireCallback _ l]
        rw [show (LanguageSwitcher.fireCallback { st with currentLanguage := l }
            l).options = st.options from fireCallback_options _ l]
        exact h.2
  · simp [ha, h]

theorem loadPersistedLanguage_invariant (st : LanguageSwitcher)
    (persisted : Option String) (h : SwitcherInvariant st) :
    SwitcherInvariant (st.loadPersistedLanguage persisted) := by
  unfold LanguageSwitcher.loadPersistedLanguage
  cases persisted with
  | none => exact h
  | some p =>
    dsimp only
    by_cases hp : p ≠ "" ∧ st.isLanguageAvailable p
    · rw [if_pos hp]
      exact ⟨(isLanguageAvailable_iff st p).mp hp.2, h.2⟩
    · rw [if_neg hp]
      exact h

theorem addLanguage_invariant (st : LanguageSwitcher) (l : String)
    (c : LanguageConfig) (hc : c.code = l) (h : SwitcherInvariant st) :
    SwitcherInvariant (st.addLanguage l c) := by
  exact ⟨mem_map_code_replaceOrAppend st.availableLanguages l c hc _ h.1,
    mem_map_code_replaceOrAppend st.availableLanguages l c hc _ h.2⟩

theorem removeLanguage_invariant (st : LanguageSwitcher) (language : String)
    (h : SwitcherInvariant st) :
    SwitcherInvariant (st.removeLanguage language).2 := by
  unfold LanguageSwitcher.removeLanguage
  by_cases hd : (language == st.options.defaultLanguage) = true
  · simp [hd, h]
  · have hne : language ≠ st.options.defaultLanguage := by
      simpa using hd
    simp only [hd, Bool.false_eq_true, if_false]
    by_cases hcur : (st.currentLanguage == language) = true
    · have hcur' : st.currentLanguage = language := by simpa using hcur
      simp only [hcur, if_true]
      rw [setLanguage_snd]
      have hmem : st.options.defaultLanguage ∈
          (st.availableLanguages.filter (fun lang => lang.code ≠ language)).map
            (fun lang => lang.code) := by
        exact (mem_map_code_filter _ language _).mpr ⟨h.2, fun e => hne e.symm⟩
      have hav : (st.availableLanguages.filter
          (fun lang => lang.code ≠ language)).any
            (fun lang => lang.code == st.options.defaultLanguage) = true := by
        simpa [availableCodes, LanguageSwitcher.isLanguageAvailable] using
          ((isLanguageAvailable_iff
            { st with
              availableLanguages :=
                st.availableLanguages.filter (fun lang => lang.code ≠ language),
              translations := jsDelete st.translations language }
            st.options.defaultLanguage).mpr (by simpa [availableCodes] using hmem))
      simp only [hav, if_true]
      have hnc : (st.currentLanguage == st.options.defaultLanguage) = false := by
        simp [hcur', hne]
      simp only [hnc, Bool.false_eq_true, if_false]
      refine ⟨?_, ?_⟩
      · rw [fireCallback_currentLanguage, availableCodes_fireCallback]
        simpa [availableCodes] using hmem
      · rw [availableCodes_fireCallback, fireCallback_options]
        simpa [availableCodes] using hmem
    · have hcur' : st.currentLanguage ≠ language := by simpa using hcur
      simp only [hcur, Bool.false_eq_true, if_false]
      refine ⟨?_, ?_⟩
      · simpa [availableCodes] using
          (mem_map_code_filter _ language _).mpr ⟨h.1, hcur'⟩
      · simpa [availableCodes] using
          (mem_map_code_filter _ language _).mpr ⟨h.2, fun e => hne e.symm⟩

theorem applyOp_invariant (st : LanguageSwitcher) (op : SwitcherOp)
    (h : SwitcherInvariant st)
    (hop : (match op with
      | SwitcherOp.addLanguage l c => c.code == l
      | _ => true) = true) :
    SwitcherInvariant (applyOp st op) := by
  cases op with
  | addLanguage l c =>
    exact addLanguage_invariant st l c (by simpa using hop) h
  | addTranslations l d => exact h
  | removeLanguage l => exact removeLanguage_invariant st l h
  | setLanguage l => exact setLanguage_invariant st l h

theorem runOps_invariant (st : LanguageSwitcher) (ops : List SwitcherOp)
    (h : SwitcherInvariant st) (hops : goodAdds ops = true) :
    SwitcherInvariant (runOps st ops) := by
  induction ops generalizing st with
  | nil => exact h
  | cons op rest ih =>
    have hall := hops
    rw [goodAdds, List.all_cons, Bool.and_eq_true] at hall
    exact ih (applyOp st op)
      (applyOp_invariant st op h (by simpa using hall.1))
      (by simpa [goodAdds] using hall.2)

theorem mkSwitcher_invariant (o : LanguageSwitcherOptions)
    (p : Option String) (hcb : Bool) :
    SwitcherInvariant (mkSwitcher o p hcb) := by
  unfold mkSwitcher
  dsimp only
  split
  · apply loadPersistedLanguage_invariant
    constructor <;>
      simp [LanguageSwitcher.addLanguage, replaceOrAppend, availableCodes]
  · constructor <;>
      simp [LanguageSwitcher.addLanguage, replaceOrAppend, availableCodes]

theorem takeWhile_append_all {α : Type} (p : α → Bool) (xs : List α) (y : α)
    (ys : List α) (hx : ∀ x ∈ xs, p x = true) (hy : p y = false) :
    (xs ++ y :: ys).takeWhile p = xs := by
  induction xs with
  | nil => simp [List.takeWhile_cons, hy]
  | cons x rest ih =>
    have hpx : p x = true := hx x (by simp)
    simp [List.takeWhile_cons, hpx, ih (fun a ha => hx a (by simp [ha]))]

theorem dropWhile_append_all {α : Type} (p : α → Bool) (xs : List α) (y : α)
    (ys : List α) (hx : ∀ x ∈ xs, p x = true) (hy : p y = false) :
    (xs ++ y :: ys).dropWhile p = y :: ys := by
  induction xs with
  | nil => simp [List.dropWhile_cons, hy]
  | cons x rest ih =>
    have hpx : p x = true := hx x (by simp)
    simp [List.dropWhile_cons, hpx, ih (fun a ha => hx a (by simp [ha]))]

theorem tryPlaceholder_some (name tail : List Char) (h1 : name ≠ [])
    (h2 : ∀ c ∈ name, isWordChar c = true) :
    tryPlaceholder ('{' :: '{' :: (name ++ '}' :: '}' :: tail)) =
      some (name, tail) := by
  cases name with
  | nil => exact absurd rfl h1
  | cons n0 nrest =>
    have hw : isWordChar '}' = false := by decide
    have ht := takeWhile_append_all isWordChar (n0 :: nrest) '}'
      ('}' :: tail) h2 hw
    have hd := dropWhile_append_all isWordChar (n0 :: nrest) '}'
      ('}' :: tail) h2 hw
    simp only [tryPlaceholder, List.cons_append] at *
    rw [ht, hd]
    simp

theorem tryPlaceholder_none_head (c : Char) (cs : List Char) (hc : c ≠ '{') :
    tryPlaceholder (c :: cs) = none := by
  cases cs with
  | nil => rfl
  | cons c2 rest =>
    simp only [tryPlaceholder]
    rw [if_neg]
    intro h
    exact hc h.1

theorem tryPlaceholder_length (cs : List Char) (name tail : List Char)
    (h : tryPlaceholder cs = some (name, tail)) :
    tail.length + 4 ≤ cs.length := by
  match cs with
  | [] => simp [tryPlaceholder] at h
  | [c1] => simp [tryPlaceholder] at h
  | c1 :: c2 :: rest =>
    simp only [tryPlaceholder] at h
    split at h
    · split at h
      · rename_i heads w ws d1 d2 tl hw hd
        split at h
        · have hlen : (rest.takeWhile isWordChar).length +
              (rest.dropWhile isWordChar).length = rest.length := by
            conv_rhs => rw [← List.takeWhile_append_dropWhile (p := isWordChar)
              (l := rest)]
            rw [List.length_append]
          rw [hw, hd] at hlen
          have : tl = tail := (Prod.mk.injEq .. ▸ Option.some.injEq .. ▸ h).2
          subst this
          simp only [List.length_cons] at hlen ⊢
          omega
        · exact absurd h (by simp)
      · exact absurd h (by simp)
    · exact absurd h (by simp)

theorem interpGo_congr (params : List (String × ParamValue)) :
    ∀ (f1 f2 : Nat) (cs : List Char), cs.length ≤ f1 → cs.length ≤ f2 →
      interpGo params f1 cs = interpGo params f2 cs := by
  intro f1
  induction f1 with
  | zero =>
    intro f2 cs h1 h2
    have : cs = [] := List.length_eq_zero.mp (Nat.le_zero.mp h1)
    subst this
    cases f2 <;> rfl
  | succ f ih =>
    intro f2 cs h1 h2
    cases cs with
    | nil => cases f2 <;> rfl
    | cons c rest =>
      cases f2 with
      | zero => simp at h2
      | succ g =>
        simp only [interpGo]
        cases htp : tryPlaceholder (c :: rest) with
        | none =>
          simp only [List.length_cons] at h1 h2
          rw [ih g rest (by omega) (by omega)]
        | some pair =>
          obtain ⟨name, tail⟩ := pair
          have hlen := tryPlaceholder_length (c :: rest) name tail htp
          simp only [List.length_cons] at h1 h2 hlen
          dsimp only
          rw [ih g tail (by omega) (by omega)]

theorem interpGo_step (params : List (String × ParamValue)) :
    ∀ (pre name post : List Char) (fuel : Nat),
      (pre ++ '{' :: '{' :: (name ++ '}' :: '}' :: post)).length ≤ fuel →
      '{' ∉ pre → name ≠ [] → (∀ c ∈ name, isWordChar c = true) →
      interpGo params fuel (pre ++ '{' :: '{' :: (name ++ '}' :: '}' :: post)) =
        pre ++ placeholderReplacement params name ++
          interpGo params post.length post := by
  intro pre
  induction pre with
  | nil =>
    intro name post fuel hlen hpre hname hword
    simp only [List.nil_append] at *
    cases fuel with
    | zero => simp at hlen
    | succ f =>
      simp only [interpGo, tryPlaceholder_some name post hname hword]
      simp only [List.length_cons, List.length_append, List.length_cons]
        at hlen
      rw [interpGo_congr params f post.length post (by omega) (by omega)]
  | cons c pre2 ih =>
    intro name post fuel hlen hpre hname hword
    have hc : c ≠ '{' := fun h => hpre (h ▸ List.mem_cons_self c pre2)
    cases fuel with
    | zero => simp at hlen
    | succ f =>
      have hlen2 :
          (pre2 ++ '{' :: '{' :: (name ++ '}' :: '}' :: post)).length ≤ f := by
        simp only [List.cons_append, List.length_cons] at hlen
        simp only [List.length_append, List.length_cons] at hlen ⊢
        omega
      simp only [List.cons_append, interpGo,
        tryPlaceholder_none_head c _ hc]
      simp only [List.append_eq]
      rw [ih name post f hlen2
        (fun h => hpre (List.mem_cons_of_mem c h)) hname hword]

theorem stringData_mk (l : List Char) : (String.mk l).data = l := rfl

theorem char_class_nonletter (c : Char) :
    (isAsciiDigit c || !isWordChar c) = false ↔
      (isAsciiLetter c = true ∨ c.toNat = 95) := by
  simp only [isAsciiDigit, isAsciiLetter, isWordChar, Bool.or_eq_false_iff,
    Bool.not_eq_false', decide_eq_false_iff_not, decide_eq_true_eq]
  omega

theorem char_class_nondigit (c : Char) :
    (isAsciiLetter c || !isWordChar c) = true ↔
      (isAsciiDigit c = false ∧ c.toNat ≠ 95) := by
  simp only [isAsciiDigit, isAsciiLetter, isWordChar, Bool.or_eq_true,
    Bool.not_eq_true', decide_eq_false_iff_not, decide_eq_true_eq]
  omega

theorem jsLength_nil (s : String) (h : s.data = []) : jsLength s = 0 := by
  simp [jsLength, h]

/-- C1: a key whose dot-split walk resolves to a string leaf neither in the
dictionary of the current language nor in the dictionary of the fallback
language
comes back unchanged from `getText` (a total function: it cannot throw). -/
theorem getText_missing_returns_key (st : LanguageSwitcher) (key : String)
    (hcur : resolveString (jsGet st.translations st.currentLanguage)
      (splitKey key) = none)
    (hfb : resolveString (jsGet st.translations st.options.fallbackLanguage)
      (splitKey key) = none) :
    st.getText key none = key := by
  unfold LanguageSwitcher.getText LanguageSwitcher.getTranslationByKey
  simp only [hcur, hfb, ite_self]

/-- Witness for C1 at a concrete, freshly constructed switcher. -/
theorem getText_missing_returns_key_witness :
    (mkSwitcher ⟨"en", none, none, none, none⟩ none false).getText
      "missing.key" none = "missing.key" :=
  getText_missing_returns_key _ "missing.key" rfl rfl

/-- C2 counterexample: with current language "de" mapping "a" to a nested
dictionary, the dot-split walk for "a" succeeds (no segment is absent and no
intermediate value is a non-dictionary), yet `getText` consults the fallback
dictionary and returns its value "Y"; dropping the fallback data changes the
result, so the fallback really was consulted outside the claimed
conditions. -/
theorem getTranslationByKey_fallback_on_nonstring_cex :
    (walkPath
        (some (TransValue.dict [("a", TransValue.dict
          [("b", TransValue.str "x")])])) (splitKey "a") =
      some (TransValue.dict [("b", TransValue.str "x")])) ∧
    (runOps (mkSwitcher ⟨"de", some "en", none, none, none⟩ none false)
      [SwitcherOp.addTranslations "de"
        [("a", TransValue.dict [("b", TransValue.str "x")])],
       SwitcherOp.addTranslations "en"
        [("a", TransValue.str "Y")]]).getText "a" none = "Y" ∧
    (runOps (mkSwitcher ⟨"de", some "en", none, none, none⟩ none false)
      [SwitcherOp.addTranslations "de"
        [("a", TransValue.dict [("b", TransValue.str "x")])]]).getText
      "a" none = "a" :=
  ⟨rfl, rfl, rfl⟩

/-- C2 amended: the fallback dictionary is consulted exactly when the
current-language walk fails to produce a string (segment absent,
intermediate value not a dictionary, or the resolved value not a string
leaf) and the configured fallback language is non-empty and differs from
the current language; a (non-empty) fallback string is then returned, a
current-language (non-empty) string hit is returned without the fallback,
and with no usable fallback configuration a failed walk yields the key. -/
theorem getText_fallback_characterized (st : LanguageSwitcher) (key : String) :
    (∀ s, resolveString (jsGet st.translations st.currentLanguage)
        (splitKey key) = some s → s ≠ "" → st.getText key none = s) ∧
    (resolveString (jsGet st.translations st.currentLanguage)
        (splitKey key) = none →
      st.options.fallbackLanguage ≠ "" →
      st.options.fallbackLanguage ≠ st.currentLanguage →
      ∀ s, resolveString (jsGet st.translations st.options.fallbackLanguage)
          (splitKey key) = some s → s ≠ "" → st.getText key none = s) ∧
    (resolveString (jsGet st.translations st.currentLanguage)
        (splitKey key) = none →
      (st.options.fallbackLanguage = "" ∨
        st.options.fallbackLanguage = st.currentLanguage) →
      st.getText key none = key) := by
  refine ⟨?_, ?_, ?_⟩
  · intro s hs hne
    unfold LanguageSwitcher.getText LanguageSwitcher.getTranslationByKey
    simp [hs, hne]
  · intro hcur hfb1 hfb2 s hs hne
    unfold LanguageSwitcher.getText LanguageSwitcher.getTranslationByKey
    simp [hcur, hfb1, hfb2, hs, hne]
  · intro hcur hor
    unfold LanguageSwitcher.getText LanguageSwitcher.getTranslationByKey
    rcases hor with h | h <;> simp [hcur, h]

/-- Witness for the amended C2 at the concrete fallback scenario of the
spec. -/
theorem getText_fallback_characterized_witness :
    (runOps (mkSwitcher ⟨"de", some "en", none, none, none⟩ none false)
      [SwitcherOp.addTranslations "en"
        [("hello", TransValue.str "Hello")]]).getText "hello" none =
      "Hello" := by
  have h := (getText_fallback_characterized
    (runOps (mkSwitcher ⟨"de", some "en", none, none, none⟩ none false)
      [SwitcherOp.addTranslations "en"
        [("hello", TransValue.str "Hello")]]) "hello").2.1
  exact h rfl (by decide) (by decide) "Hello" rfl (by decide)

/-- C5: removing the configured default language throws, with the message of
the source, and returns every piece of switcher state unchanged — in any
state whatsoever, reachable or not. -/
theorem removeLanguage_default_always_throws (st : LanguageSwitcher) :
    st.removeLanguage st.options.defaultLanguage =
      (Except.error ("Cannot remove default language \x27" ++
        st.options.defaultLanguage ++ "\x27"), st) := by
  unfold LanguageSwitcher.removeLanguage
  simp

/-- C7: `translateBatch` returns one response per request in positional
correspondence: a request whose provider call fails yields a response
echoing the request text with confidence 0 (and the source language of the
request as detected language), any other request yields exactly the
response of the provider; the function is total, so the batch call never
rejects. -/
theorem translateBatch_per_item
    (translate : TranslationRequest → Except String TranslationResponse)
    (requests : List TranslationRequest) :
    (translateBatch translate requests).length = requests.length ∧
    ∀ (i : Nat) (request : TranslationRequest), requests[i]? = some request →
      (translateBatch translate requests)[i]? =
        some (match translate request with
          | Except.ok response => response
          | Except.error _ =>
            { translatedText := request.text
              confidence := some 0
              detectedLanguage := some request.fromLanguage }) := by
  induction requests with
  | nil => exact ⟨rfl, fun i request h => by simp at h⟩
  | cons r rest ih =>
    refine ⟨by simp [translateBatch, ih.1], ?_⟩
    intro i request h
    cases i with
    | zero =>
      simp only [List.getElem?_cons_zero, Option.some.injEq] at h
      subst h
      simp [translateBatch]
    | succ n =>
      simp only [List.getElem?_cons_succ] at h
      simpa [translateBatch] using ih.2 n request h

/-- Witness for C7: a two-request batch whose second item fails. -/
theorem translateBatch_per_item_witness :
    ([(⟨"hello", "en", "fr"⟩ : TranslationRequest),
        ⟨"bad", "en", "fr"⟩])[1]? = some
        (⟨"bad", "en", "fr"⟩ : TranslationRequest) ∧
    (translateBatch
      (fun r => if r.text = "bad" then Except.error "boom"
        else Except.ok ⟨r.text ++ "!", some 1, some r.fromLanguage⟩)
      [⟨"hello", "en", "fr"⟩, ⟨"bad", "en", "fr"⟩]).length = 2 ∧
    (translateBatch
      (fun r => if r.text = "bad" then Except.error "boom"
        else Except.ok ⟨r.text ++ "!", some 1, some r.fromLanguage⟩)
      [⟨"hello", "en", "fr"⟩, ⟨"bad", "en", "fr"⟩])[1]? =
      some ⟨"bad", some 0, some "en"⟩ := by
  have h := translateBatch_per_item
    (fun r => if r.text = "bad" then Except.error "boom"
      else Except.ok ⟨r.text ++ "!", some 1, some r.fromLanguage⟩)
    [⟨"hello", "en", "fr"⟩, ⟨"bad", "en", "fr"⟩]
  exact ⟨rfl, h.1.trans rfl, (h.2 1 ⟨"bad", "en", "fr"⟩ rfl).trans rfl⟩

/-- C3 counterexample: after an `addLanguage("en", config)` call whose
config carries code "fr", the
current language "en" is no longer in the available set (a reachable
state), and `setLanguage(currentLanguage)` then rejects instead of
resolving as a no-op. -/
theorem setLanguage_current_rejects_cex :
    (runOps (mkSwitcher ⟨"en", none, none, none, none⟩ none true)
      [SwitcherOp.addLanguage "en" ⟨"fr", "FR", none, none⟩]).currentLanguage
      = "en" ∧
    ((runOps (mkSwitcher ⟨"en", none, none, none, none⟩ none true)
      [SwitcherOp.addLanguage "en" ⟨"fr", "FR", none, none⟩]).setLanguage
        "en").1 = Except.error "Language \x27en\x27 is not available" ∧
    ((runOps (mkSwitcher ⟨"en", none, none, none, none⟩ none true)
      [SwitcherOp.addLanguage "en" ⟨"fr", "FR", none, none⟩]).setLanguage
        "en").2 =
      runOps (mkSwitcher ⟨"en", none, none, none, none⟩ none true)
        [SwitcherOp.addLanguage "en" ⟨"fr", "FR", none, none⟩] :=
  ⟨rfl, rfl, rfl⟩

/-- C3 amended: an unavailable code (which, after `addLanguage` replaced
the entry, may include the current language itself) rejects with the
message of the source and leaves the whole state unchanged; when the current
language is still available, `setLanguage(currentLanguage)` resolves
without firing the callback and without side effects; an accepted
transition to an available, different code succeeds, switches the current
language and fires the registered callback exactly once with the new
code, leaving languages and translations untouched. -/
theorem setLanguage_amended (st : LanguageSwitcher) (code : String) :
    (st.isLanguageAvailable code = false →
      st.setLanguage code =
        (Except.error ("Language \x27" ++ code ++ "\x27 is not available"), st)) ∧
    (st.isLanguageAvailable code = true → code = st.currentLanguage →
      st.setLanguage code = (Except.ok (), st)) ∧
    (st.isLanguageAvailable code = true → code ≠ st.currentLanguage →
      st.hasCallback = true →
      (st.setLanguage code).1 = Except.ok () ∧
      (st.setLanguage code).2.currentLanguage = code ∧
      (st.setLanguage code).2.callbackLog = st.callbackLog ++ [code] ∧
      (st.setLanguage code).2.availableLanguages = st.availableLanguages ∧
      (st.setLanguage code).2.translations = st.translations ∧
      (st.setLanguage code).2.options = st.options) := by
  refine ⟨?_, ?_, ?_⟩
  · intro h
    have h2 : st.availableLanguages.any (fun lang => lang.code == code)
        = false := h
    unfold LanguageSwitcher.setLanguage
    rw [if_pos (by simp [h2])]
  · intro h hc
    have h2 : st.availableLanguages.any (fun lang => lang.code == code)
        = true := h
    unfold LanguageSwitcher.setLanguage
    rw [if_neg (not_not_intro h2)]
    rw [if_pos (show (st.currentLanguage == code) = true by simp [hc])]
  · intro h hne hcb
    have h2 : st.availableLanguages.any (fun lang => lang.code == code)
        = true := h
    have hb : (st.currentLanguage == code) = false := by
      simp [Ne.symm hne]
    unfold LanguageSwitcher.setLanguage
    rw [if_neg (not_not_intro h2)]
    rw [if_neg (by simp [hb])]
    refine ⟨rfl, ?_, ?_, ?_, ?_, ?_⟩ <;>
      simp [LanguageSwitcher.fireCallback, hcb]

/-- Witness for the amended C3: a switcher with "en" (default, current)
and "fr" available and a registered callback. -/
theorem setLanguage_amended_witness :
    ((runOps (mkSwitcher ⟨"en", none, none, none, none⟩ none true)
      [SwitcherOp.addLanguage "fr" ⟨"fr", "French", none, none⟩]).setLanguage
        "xx").1 = Except.error "Language \x27xx\x27 is not available" ∧
    ((runOps (mkSwitcher ⟨"en", none, none, none, none⟩ none true)
      [SwitcherOp.addLanguage "fr" ⟨"fr", "French", none, none⟩]).setLanguage
        "en") = (Except.ok (),
      runOps (mkSwitcher ⟨"en", none, none, none, none⟩ none true)
        [SwitcherOp.addLanguage "fr" ⟨"fr", "French", none, none⟩]) ∧
    ((runOps (mkSwitcher ⟨"en", none, none, none, none⟩ none true)
      [SwitcherOp.addLanguage "fr" ⟨"fr", "French", none, none⟩]).setLanguage
        "fr").2.currentLanguage = "fr" ∧
    ((runOps (mkSwitcher ⟨"en", none, none, none, none⟩ none true)
      [SwitcherOp.addLanguage "fr" ⟨"fr", "French", none, none⟩]).setLanguage
        "fr").2.callbackLog = ["fr"] := by
  refine ⟨?_, ?_, ?_, ?_⟩
  · exact congrArg Prod.fst ((setLanguage_amended
      (runOps (mkSwitcher ⟨"en", none, none, none, none⟩ none true)
        [SwitcherOp.addLanguage "fr" ⟨"fr", "French", none, none⟩])
      "xx").1 rfl)
  · exact (setLanguage_amended
      (runOps (mkSwitcher ⟨"en", none, none, none, none⟩ none true)
        [SwitcherOp.addLanguage "fr" ⟨"fr", "French", none, none⟩])
      "en").2.1 rfl rfl
  · exact ((setLanguage_amended
      (runOps (mkSwitcher ⟨"en", none, none, none, none⟩ none true)
        [SwitcherOp.addLanguage "fr" ⟨"fr", "French", none, none⟩])
      "fr").2.2 rfl (by decide) rfl).2.1
  · exact (((setLanguage_amended
      (runOps (mkSwitcher ⟨"en", none, none, none, none⟩ none true)
        [SwitcherOp.addLanguage "fr" ⟨"fr", "French", none, none⟩])
      "fr").2.2 rfl (by decide) rfl).2.2.1).trans rfl

/-- C4 counterexample: an `addLanguage("en", config)` call whose config
carries code "fr" replaces the
entry of the default/current language with a differently-coded config, after
which `currentLanguage` ("en") is not the code of any available
language. -/
theorem currentLanguage_unavailable_cex :
    (runOps (mkSwitcher ⟨"en", none, none, none, none⟩ none false)
      [SwitcherOp.addLanguage "en" ⟨"fr", "FR", none, none⟩]).currentLanguage
      = "en" ∧
    availableCodes (runOps (mkSwitcher ⟨"en", none, none, none, none⟩ none
      false) [SwitcherOp.addLanguage "en" ⟨"fr", "FR", none, none⟩]) =
      ["fr"] ∧
    (runOps (mkSwitcher ⟨"en", none, none, none, none⟩ none false)
      [SwitcherOp.addLanguage "en" ⟨"fr", "FR", none, none⟩]).currentLanguage
      ∉ availableCodes (runOps (mkSwitcher ⟨"en", none, none, none, none⟩
        none false) [SwitcherOp.addLanguage "en" ⟨"fr", "FR", none, none⟩]) :=
  ⟨rfl, rfl, by decide⟩

/-- C4 amended: in every state reachable by constructor plus any sequence
of public operations in which each `addLanguage` uses a config whose code
equals its language argument, the current language is the code of some
available language. -/
theorem currentLanguage_always_available_amended
    (o : LanguageSwitcherOptions) (p : Option String) (hcb : Bool)
    (ops : List SwitcherOp) (hops : goodAdds ops = true) :
    (runOps (mkSwitcher o p hcb) ops).currentLanguage ∈
      availableCodes (runOps (mkSwitcher o p hcb) ops) :=
  (runOps_invariant (mkSwitcher o p hcb) ops (mkSwitcher_invariant o p hcb)
    hops).1

/-- Witness for the amended C4 on a concrete well-formed operation
sequence. -/
theorem currentLanguage_always_available_amended_witness :
    goodAdds [SwitcherOp.addLanguage "fr" ⟨"fr", "French", none, none⟩,
      SwitcherOp.setLanguage "fr"] = true ∧
    (runOps (mkSwitcher ⟨"en", none, none, none, none⟩ none false)
      [SwitcherOp.addLanguage "fr" ⟨"fr", "French", none, none⟩,
       SwitcherOp.setLanguage "fr"]).currentLanguage ∈
      availableCodes (runOps (mkSwitcher ⟨"en", none, none, none, none⟩
        none false)
        [SwitcherOp.addLanguage "fr" ⟨"fr", "French", none, none⟩,
         SwitcherOp.setLanguage "fr"]) :=
  ⟨by decide,
    currentLanguage_always_available_amended _ _ _ _ (by decide)⟩

/-- C10 counterexample: in the reachable state where `addLanguage`
replaced the entry of the default language, removing the current
(non-default)
language leaves the removed language current — the silent fall-back to the
default does not happen because the inner `setLanguage(default)` rejects
(the rejection of the unawaited promise is dropped). -/
theorem removeLanguage_no_fallback_cex :
    (runOps (mkSwitcher ⟨"en", none, none, none, none⟩ none false)
      [SwitcherOp.addLanguage "fr" ⟨"fr", "French", none, none⟩,
       SwitcherOp.setLanguage "fr",
       SwitcherOp.addLanguage "en" ⟨"de", "DE", none, none⟩]).currentLanguage
      = "fr" ∧
    (runOps (mkSwitcher ⟨"en", none, none, none, none⟩ none false)
      [SwitcherOp.addLanguage "fr" ⟨"fr", "French", none, none⟩,
       SwitcherOp.setLanguage "fr",
       SwitcherOp.addLanguage "en" ⟨"de", "DE", none, none⟩]
      ).options.defaultLanguage = "en" ∧
    ((runOps (mkSwitcher ⟨"en", none, none, none, none⟩ none false)
      [SwitcherOp.addLanguage "fr" ⟨"fr", "French", none, none⟩,
       SwitcherOp.setLanguage "fr",
       SwitcherOp.addLanguage "en" ⟨"de", "DE", none, none⟩]).removeLanguage
        "fr").2.currentLanguage = "fr" :=
  ⟨rfl, rfl, rfl⟩

/-- C10 amended: provided the configured default language is (still) a
member of the available set — which holds unless `addLanguage` replaced
its entry with a different code — removing the current, non-default
language succeeds and switches the current language to the default. -/
theorem removeLanguage_falls_back_amended (st : LanguageSwitcher)
    (hdef : st.options.defaultLanguage ∈ availableCodes st)
    (hcur : st.currentLanguage ≠ st.options.defaultLanguage) :
    (st.removeLanguage st.currentLanguage).1 = Except.ok () ∧
    (st.removeLanguage st.currentLanguage).2.currentLanguage =
      st.options.defaultLanguage := by
  have hd : (st.currentLanguage == st.options.defaultLanguage) = false := by
    simp [hcur]
  have hmem : st.options.defaultLanguage ∈
      (st.availableLanguages.filter
        (fun lang => lang.code ≠ st.currentLanguage)).map
        (fun lang => lang.code) :=
    (mem_map_code_filter _ _ _).mpr ⟨hdef, fun e => hcur e.symm⟩
  have hav : (st.availableLanguages.filter
      (fun lang => lang.code ≠ st.currentLanguage)).any
      (fun lang => lang.code == st.options.defaultLanguage) = true := by
    rw [List.any_eq_true]
    obtain ⟨lang, hl, hcode⟩ := List.mem_map.mp hmem
    exact ⟨lang, hl, by simp [hcode]⟩
  unfold LanguageSwitcher.removeLanguage
  simp only [hd, Bool.false_eq_true, if_false]
  rw [setLanguage_snd]
  simp only [beq_self_eq_true, if_true]
  simp only [hav, if_true]
  simp only [hd, Bool.false_eq_true, if_false]
  exact ⟨trivial, (fireCallback_currentLanguage _ _).trans rfl⟩

/-- Witness for the amended C10: removing the current language "fr" with
the default "en" still available falls back to "en". -/
theorem removeLanguage_falls_back_amended_witness :
    ((runOps (mkSwitcher ⟨"en", none, none, none, none⟩ none false)
      [SwitcherOp.addLanguage "fr" ⟨"fr", "French", none, none⟩,
       SwitcherOp.setLanguage "fr"]).removeLanguage
      (runOps (mkSwitcher ⟨"en", none, none, none, none⟩ none false)
        [SwitcherOp.addLanguage "fr" ⟨"fr", "French", none, none⟩,
         SwitcherOp.setLanguage "fr"]).currentLanguage).2.currentLanguage
      = "en" := by
  have h := removeLanguage_falls_back_amended
    (runOps (mkSwitcher ⟨"en", none, none, none, none⟩ none false)
      [SwitcherOp.addLanguage "fr" ⟨"fr", "French", none, none⟩,
       SwitcherOp.setLanguage "fr"]) (by decide) (by decide)
  exact h.2.trans rfl

/-- C6: two successive `addTranslations` calls to the same language merge
only at the top level — every top-level key of the second dictionary maps
to the value from the second dictionary wholly (so any earlier subtree
under such a key is replaced, not deep-merged), while top-level keys only
in the first dictionary keep the value from the first dictionary. -/
theorem addTranslations_shallow_merge (st : LanguageSwitcher) (lang : String)
    (d1 d2 : TranslationData) :
    ∃ dict, jsGet (((st.addTranslations lang d1).addTranslations lang
        d2)).translations lang = some dict ∧
      (∀ k v, jsGet d2 k = some v → jsGet dict k = some v) ∧
      (∀ k v, jsGet d2 k = none → jsGet d1 k = some v →
        jsGet dict k = some v) := by
  have h1 : jsGet (st.addTranslations lang d1).translations lang =
      some (spreadMerge ((jsGet st.translations lang).getD []) d1) := by
    simp [LanguageSwitcher.addTranslations, jsGet_jsSet_self]
  have key : ∀ st1 : LanguageSwitcher,
      jsGet st1.translations lang =
        some (spreadMerge ((jsGet st.translations lang).getD []) d1) →
      jsGet (st1.addTranslations lang d2).translations lang =
        some (spreadMerge (spreadMerge ((jsGet st.translations lang).getD [])
          d1) d2) := by
    intro st1 h
    simp [LanguageSwitcher.addTranslations, jsGet_jsSet_self, h]
  refine ⟨spreadMerge (spreadMerge ((jsGet st.translations lang).getD []) d1)
    d2, key _ h1, ?_, ?_⟩
  · intro k v h
    rw [jsGet_spreadMerge]
    simp [h]
  · intro k v h2 h1k
    rw [jsGet_spreadMerge]
    simp only [h2]
    rw [jsGet_spreadMerge]
    simp [h1k]

/-- Witness for C6 at the concrete example of the spec. -/
theorem addTranslations_shallow_merge_witness :
    ∃ dict, jsGet (((mkSwitcher ⟨"en", none, none, none, none⟩ none
        false).addTranslations "en" [("a", TransValue.str "1")]
        ).addTranslations "en" [("b", TransValue.str "2")]).translations
        "en" = some dict ∧
      jsGet dict "b" = some (TransValue.str "2") ∧
      jsGet dict "a" = some (TransValue.str "1") := by
  obtain ⟨dict, hd, hb, ha⟩ := addTranslations_shallow_merge
    (mkSwitcher ⟨"en", none, none, none, none⟩ none false) "en"
    [("a", TransValue.str "1")] [("b", TransValue.str "2")]
  exact ⟨dict, hd, hb "b" (TransValue.str "2") rfl,
    ha "a" (TransValue.str "1") rfl rfl⟩

/-- C8 counterexample: the parameter name "x" is present in the map with
the empty-string value, yet the placeholder is left verbatim — the
replacement callback treats the stringified value as falsy. -/
theorem defaultInterpolation_empty_param_cex :
    jsGet [("x", ParamValue.s "")] "x" = some (ParamValue.s "") ∧
    defaultInterpolation "\x7b\x7bx\x7d\x7d" [("x", ParamValue.s "")] =
      "\x7b\x7bx\x7d\x7d" :=
  ⟨rfl, rfl⟩

/-- C8 amended: in a template made of a brace-free prefix, a double-brace
placeholder over a non-empty word-character name, and an arbitrary rest
(interpolated recursively, covering every further occurrence), the
placeholder is replaced by the stringified parameter value — numbers
rendered in decimal, including 0 — exactly when the name is present in
the map and its stringified value is non-empty; a placeholder whose name
is absent, or whose value stringifies to the empty string, stays
verbatim. -/
theorem defaultInterpolation_amended (pre name post : List Char)
    (params : List (String × ParamValue)) (hpre : '{' ∉ pre)
    (hname : name ≠ []) (hword : ∀ c ∈ name, isWordChar c = true) :
    defaultInterpolation
        (String.mk (pre ++ '{' :: '{' :: (name ++ '}' :: '}' :: post)))
        params =
      String.mk (pre ++ placeholderReplacement params name ++
        interpGo params post.length post) := by
  unfold defaultInterpolation
  rw [stringData_mk]
  rw [interpGo_step params pre name post _ (le_refl _) hpre hname hword]

/-- Witness for the amended C8: the numeric parameter 0 is rendered as its
decimal form "0". -/
theorem defaultInterpolation_amended_witness :
    defaultInterpolation (String.mk (['H', 'i', ' '] ++ '{' :: '{' ::
        (['c', 'o', 'u', 'n', 't'] ++ '}' :: '}' :: [])))
      [("count", ParamValue.n 0)] = "Hi 0" := by
  have h := defaultInterpolation_amended ['H', 'i', ' ']
    ['c', 'o', 'u', 'n', 't'] [] [("count", ParamValue.n 0)]
    (by decide) (by decide) (by decide)
  exact h.trans rfl

/-- C9 counterexample: "abc1" has length at least 2 and is not composed
solely of digits, whitespace and punctuation (it contains letters), yet
the heuristic rejects it — the digit makes the pure-Latin test fail and no
character is at or above U+0080. -/
theorem isTranslatableText_alnum_cex :
    2 ≤ jsLength "abc1" ∧
    (∃ c ∈ "abc1".data, isAsciiLetter c = true) ∧
    isTranslatableText "abc1" = false :=
  ⟨by decide, by decide, rfl⟩

/-- C9 amended: the heuristic accepts exactly the strings of UTF-16 length
at least 2 that contain some letter or underscore and either contain no
ASCII digit or underscore at all, or contain some code point at or above
U+0080; in particular pure-ASCII strings mixing letters with digits or
underscores are rejected along with the empty/short and
all-digit/whitespace/punctuation ones. -/
theorem isTranslatableText_characterized (s : String) :
    isTranslatableText s = true ↔
      2 ≤ jsLength s ∧
      (∃ c ∈ s.data, isAsciiLetter c = true ∨ c.toNat = 95) ∧
      ((∀ c ∈ s.data, isAsciiDigit c = false ∧ c.toNat ≠ 95) ∨
        ∃ c ∈ s.data, 128 ≤ c.toNat) := by
  by_cases hlen : jsLength s < 2
  · rw [isTranslatableText, if_pos hlen]
    simp only [Bool.false_eq_true, false_iff]
    rintro ⟨h2, -, -⟩
    omega
  · have h2 : 2 ≤ jsLength s := by omega
    have hne : s.data ≠ [] := by
      intro h
      rw [jsLength_nil s h] at h2
      omega
    have hdec : decide (jsLength s < 2) = false := decide_eq_false hlen
    rw [isTranslatableText, if_neg hlen]
    by_cases hm : matchesAll (fun c => isAsciiDigit c || !isWordChar c) s
        = true
    · rw [if_pos (by simp [hm])]
      simp only [Bool.false_eq_true, false_iff]
      rintro ⟨-, ⟨c, hc, hcl⟩, -⟩
      have hall : ∀ c ∈ s.data, (isAsciiDigit c || !isWordChar c) = true := by
        rw [matchesAll, Bool.and_eq_true, List.all_eq_true] at hm
        exact hm.2
      have ht := hall c hc
      rw [(char_class_nonletter c).mpr hcl] at ht
      exact Bool.false_ne_true ht
    · rw [if_neg (by simp [hdec]; exact Bool.eq_false_iff.mpr hm)]
      have hex : ∃ c ∈ s.data, isAsciiLetter c = true ∨ c.toNat = 95 := by
        have : ¬ ∀ c ∈ s.data, (isAsciiDigit c || !isWordChar c) = true := by
          intro hall
          exact hm (by
            rw [matchesAll, Bool.and_eq_true, List.all_eq_true]
            exact ⟨by simpa using hne, hall⟩)
        push_neg at this
        obtain ⟨c, hc, hcl⟩ := this
        exact ⟨c, hc, (char_class_nonletter c).mp
          (Bool.not_eq_true _ ▸ hcl)⟩
      constructor
      · intro hb
        rw [Bool.or_eq_true] at hb
        refine ⟨h2, hex, ?_⟩
        rcases hb with he | hu
        · left
          intro c hc
          have hall : ∀ c ∈ s.data,
              (isAsciiLetter c || !isWordChar c) = true := by
            rw [matchesAll, Bool.and_eq_true, List.all_eq_true] at he
            exact he.2
          exact (char_class_nondigit c).mp (hall c hc)
        · right
          rw [containsChar, List.any_eq_true] at hu
          obtain ⟨c, hc, hge⟩ := hu
          exact ⟨c, hc, of_decide_eq_true hge⟩
      · rintro ⟨-, -, hall | ⟨c, hc, hge⟩⟩
        · rw [Bool.or_eq_true]
          left
          rw [matchesAll, Bool.and_eq_true, List.all_eq_true]
          exact ⟨by simpa using hne,
            fun c hc => (char_class_nondigit c).mpr (hall c hc)⟩
        · rw [Bool.or_eq_true]
          right
          rw [containsChar, List.any_eq_true]
          exact ⟨c, hc, decide_eq_true hge⟩
